import Mathlib

/-!
Shallow embedding of the ELF decoding/encoding core of the `elfutils`
repository (src/header.ts), together with theorems settling the claims of
its natural-language specification.

Modelling conventions:
* A Node `Buffer` is modelled as `Bytes := List Nat`, each entry one byte.
* `DataView.getUintN / setUintN / getBigUint64 / setBigUint64` are modelled
  by `readU` / `writeU` over the byte list; `setUintN` stores the value
  modulo `2^(8w)` (JS `ToUint32`-style wrapping), which `natToBytesLE`
  reproduces.  Out-of-range DataView access throws a `RangeError` in JS;
  the embedding models the in-bounds behaviour only, and every theorem
  that depends on a read or write carries an explicit bounds hypothesis.
* `buffer.slice(a, b)` clamps to the buffer length in Node; `bufSlice`
  reproduces exactly that clamping via `List.drop`/`List.take`.
* JS values that can flow through the getters/setters of the library
  (`number`, `bigint`, `undefined`, `boolean`) are modelled by `JsVal`;
  a setter that would throw a `TypeError` in JS returns `none`.
-/

/-- A Node `Buffer`: a list of bytes. -/
abbrev Bytes := List Nat

/-- The `w` little-endian bytes of `v` (least significant first); this is the
byte image that `DataView.setUintN(off, v, true)` stores, including the
wrap-around modulo `2^(8w)`. -/
def natToBytesLE : Nat → Nat → List Nat
  | 0, _ => []
  | w + 1, v => v % 256 :: natToBytesLE w (v / 256)

/-- Little-endian read of `w` bytes starting at `off`
(`DataView.getUintN(off, true)`). -/
def readLEnat (b : Bytes) : Nat → Nat → Nat
  | _, 0 => 0
  | off, w + 1 => b.getD off 0 + 256 * readLEnat b (off + 1) w

/-- Big-endian read of `w` bytes starting at `off`
(`DataView.getUintN(off, false)`). -/
def readBEnat (b : Bytes) : Nat → Nat → Nat
  | _, 0 => 0
  | off, w + 1 => b.getD off 0 * 256 ^ w + readBEnat b (off + 1) w

/-- Overwrite the bytes of `b` at `[off, off + l.length)` with `l`
(in-bounds behaviour of a DataView store). -/
def writeList (b : Bytes) (off : Nat) (l : List Nat) : Bytes :=
  b.take off ++ l ++ b.drop (off + l.length)

/-- `DataView` read of a `w`-byte unsigned field at `off`, endianness `le`. -/
def readU (w : Nat) (le : Bool) (b : Bytes) (off : Nat) : Nat :=
  if le then readLEnat b off w else readBEnat b off w

/-- `DataView` write of a `w`-byte unsigned field at `off`, endianness `le`. -/
def writeU (w : Nat) (le : Bool) (b : Bytes) (off v : Nat) : Bytes :=
  writeList b off (if le then natToBytesLE w v else (natToBytesLE w v).reverse)

/-- `DataView.getUint8`. -/
def getUint8 (b : Bytes) (off : Nat) : Nat := b.getD off 0

/-- Node `buffer.slice(start, stop)`: a clamped window, never an error. -/
def bufSlice (b : Bytes) (start stop : Nat) : Bytes :=
  (b.drop start).take (stop - start)

/-- A JS value flowing through the library's getters and setters:
an ordinary number, a BigInt, `undefined`, or a boolean. -/
inductive JsVal
  | num (n : Nat)
  | big (n : Nat)
  | undef
  | bool (b : Bool)
deriving DecidableEq

/-- JS `ToNumber` followed by the integer wrap of `DataView.setUintN`:
`undefined` becomes `NaN` and is stored as `0`; booleans coerce to `0`/`1`;
a BigInt argument makes `setUintN` throw a `TypeError` (`none`). -/
def jsToNumber : JsVal → Option Nat
  | .num n => some n
  | .big _ => none
  | .undef => some 0
  | .bool b => some (if b then 1 else 0)

/-- JS `ToBigInt` as used by `DataView.setBigUint64`: numbers and
`undefined` throw a `TypeError` (`none`); booleans coerce to `0n`/`1n`. -/
def jsToBigInt : JsVal → Option Nat
  | .num _ => none
  | .big n => some n
  | .undef => none
  | .bool b => some (if b then 1 else 0)

/-- Modelled from the spec: the numeric section-type codes referenced by
`header.ts` come from `constants.ts`, which is not part of the available
sources; the spec names the tags (SYMTAB, DYNSYM, REL, RELA, DYNAMIC, NOTE)
without numeric values, so the standard ELF codes those names denote are
used.  No claim below depends on the particular values, only on their
distinctness. -/
def sh_type.SYMTAB : Nat := 2

/-- Modelled from the spec: standard ELF code for the DYNSYM tag. -/
def sh_type.DYNSYM : Nat := 11

/-- Modelled from the spec: standard ELF code for the REL tag. -/
def sh_type.REL : Nat := 9

/-- Modelled from the spec: standard ELF code for the RELA tag. -/
def sh_type.RELA : Nat := 4

/-- Modelled from the spec: standard ELF code for the DYNAMIC tag. -/
def sh_type.DYNAMIC : Nat := 6

/-- Modelled from the spec: standard ELF code for the NOTE tag. -/
def sh_type.NOTE : Nat := 7

/-- Modelled from the spec: standard ELF code for the PROGBITS tag (used
only as a concrete tag outside every record kind's affinity set). -/
def sh_type.PROGBITS : Nat := 1

/-- `ELFHeader.isLE`: `this.ident[e_ident.DATA] == 1`, where the `ident`
getter reads the data-encoding byte with `view.getUint8(5)`. -/
def ELFHeader.isLE (b : Bytes) : Bool := getUint8 b 5 == 1

/-- `ELFHeader.is32bit`: `this.ident[e_ident.CLASS] == 1`, where the `ident`
getter reads the class byte with `view.getUint8(4)`. -/
def ELFHeader.is32bit (b : Bytes) : Bool := getUint8 b 4 == 1

/-- `ELFHeader.phoff` as consumed through `Number(...)` by `ELF.FromBuffer`:
`is32bit ? getUint32(0x1c) : getBigUint64(0x20)`. -/
def ELFHeader.phoffN (b : Bytes) : Nat :=
  if ELFHeader.is32bit b then readU 4 (ELFHeader.isLE b) b 0x1c
  else readU 8 (ELFHeader.isLE b) b 0x20

/-- `ELFHeader.shoff` as a natural number:
`is32bit ? getUint32(0x20) : getBigUint64(0x28)`. -/
def ELFHeader.shoffN (b : Bytes) : Nat :=
  if ELFHeader.is32bit b then readU 4 (ELFHeader.isLE b) b 0x20
  else readU 8 (ELFHeader.isLE b) b 0x28

/-- `ELFHeader.phentsize`: `getUint16(is32bit ? 0x2a : 0x36)`. -/
def ELFHeader.phentsizeN (b : Bytes) : Nat :=
  readU 2 (ELFHeader.isLE b) b (if ELFHeader.is32bit b then 0x2a else 0x36)

/-- `ELFHeader.phnum`: `getUint16(is32bit ? 0x2c : 0x38)`. -/
def ELFHeader.phnumN (b : Bytes) : Nat :=
  readU 2 (ELFHeader.isLE b) b (if ELFHeader.is32bit b then 0x2c else 0x38)

/-- `ELFHeader.shentsize`: `getUint16(is32bit ? 0x2e : 0x3a)`. -/
def ELFHeader.shentsizeN (b : Bytes) : Nat :=
  readU 2 (ELFHeader.isLE b) b (if ELFHeader.is32bit b then 0x2e else 0x3a)

/-- `ELFHeader.shnum`: `getUint16(is32bit ? 0x30 : 0x3c)`. -/
def ELFHeader.shnumN (b : Bytes) : Nat :=
  readU 2 (ELFHeader.isLE b) b (if ELFHeader.is32bit b then 0x30 else 0x3c)

/-- The scalar fields of `ELFHeader` that have both a getter and a setter. -/
inductive EHField
  | type | machine | version | entry | phoff | shoff | flags
  | ehsize | phentsize | phnum | shentsize | shnum | shstrndx
deriving DecidableEq

/-- The `ELFHeader` getters (src/header.ts lines 104-154), one match arm per
source getter; the variant is read from the header's own buffer. -/
def ELFHeader.get (b : Bytes) (f : EHField) : JsVal :=
  let le := ELFHeader.isLE b
  let is32 := ELFHeader.is32bit b
  match f with
  | .type => .num (readU 2 le b 0x10)
  | .machine => .num (readU 2 le b 0x12)
  | .version => .num (readU 4 le b 0x14)
  | .entry => if is32 then .num (readU 4 le b 0x18) else .big (readU 8 le b 0x18)
  | .phoff => if is32 then .num (readU 4 le b 0x1c) else .big (readU 8 le b 0x20)
  | .shoff => if is32 then .num (readU 4 le b 0x20) else .big (readU 8 le b 0x28)
  | .flags => .num (readU 4 le b (if is32 then 0x24 else 0x30))
  | .ehsize => .num (readU 2 le b (if is32 then 0x28 else 0x34))
  | .phentsize => .num (readU 2 le b (if is32 then 0x2a else 0x36))
  | .phnum => .num (readU 2 le b (if is32 then 0x2c else 0x38))
  | .shentsize => .num (readU 2 le b (if is32 then 0x2e else 0x3a))
  | .shnum => .num (readU 2 le b (if is32 then 0x30 else 0x3c))
  | .shstrndx => .num (readU 2 le b (if is32 then 0x32 else 0x3e))

/-- The `ELFHeader` setters (src/header.ts lines 156-206).  Native-word
setters dispatch on the JS value kind (`typeof val == 'number'`), not on
the variant; fixed-width setters coerce through `ToNumber`. -/
def ELFHeader.set (b : Bytes) (f : EHField) (v : JsVal) : Option Bytes :=
  let le := ELFHeader.isLE b
  let is32 := ELFHeader.is32bit b
  match f, v with
  | .type, v => (jsToNumber v).map (fun n => writeU 2 le b 0x10 n)
  | .machine, v => (jsToNumber v).map (fun n => writeU 2 le b 0x12 n)
  | .version, v => (jsToNumber v).map (fun n => writeU 4 le b 0x14 n)
  | .entry, .num n => some (writeU 4 le b 0x18 n)
  | .entry, v => (jsToBigInt v).map (fun n => writeU 8 le b 0x18 n)
  | .phoff, .num n => some (writeU 4 le b 0x1c n)
  | .phoff, v => (jsToBigInt v).map (fun n => writeU 8 le b 0x20 n)
  | .shoff, .num n => some (writeU 4 le b 0x20 n)
  | .shoff, v => (jsToBigInt v).map (fun n => writeU 8 le b 0x28 n)
  | .flags, v => (jsToNumber v).map (fun n => writeU 4 le b (if is32 then 0x24 else 0x30) n)
  | .ehsize, v => (jsToNumber v).map (fun n => writeU 2 le b (if is32 then 0x28 else 0x34) n)
  | .phentsize, v => (jsToNumber v).map (fun n => writeU 2 le b (if is32 then 0x2a else 0x36) n)
  | .phnum, v => (jsToNumber v).map (fun n => writeU 2 le b (if is32 then 0x2c else 0x38) n)
  | .shentsize, v => (jsToNumber v).map (fun n => writeU 2 le b (if is32 then 0x2e else 0x3a) n)
  | .shnum, v => (jsToNumber v).map (fun n => writeU 2 le b (if is32 then 0x30 else 0x3c) n)
  | .shstrndx, v => (jsToNumber v).map (fun n => writeU 2 le b (if is32 then 0x32 else 0x3e) n)

/-- The scalar fields of `ProgramHeader` (each has a getter and a setter). -/
inductive PHField
  | type | flags | offset | vaddr | paddr | filesz | memsz | align
deriving DecidableEq

/-- The `ProgramHeader` getters (src/header.ts lines 254-284); `le`/`is32`
are the element's inherited `isLE`/`is32bit` (delegated to its `elf`). -/
def ProgramHeader.get (b : Bytes) (le is32 : Bool) : PHField → JsVal
  | .type => .num (readU 4 le b 0)
  | .flags => .num (readU 4 le b (if is32 then 0x18 else 4))
  | .offset => if is32 then .num (readU 4 le b 4) else .big (readU 8 le b 8)
  | .vaddr => if is32 then .num (readU 4 le b 8) else .big (readU 8 le b 0x10)
  | .paddr => if is32 then .num (readU 4 le b 0x0c) else .big (readU 8 le b 0x18)
  | .filesz => if is32 then .num (readU 4 le b 0x10) else .big (readU 8 le b 0x20)
  | .memsz => if is32 then .num (readU 4 le b 0x14) else .big (readU 8 le b 0x28)
  | .align => if is32 then .num (readU 4 le b 0x1c) else .big (readU 8 le b 0x30)

/-- The `ProgramHeader` setters (src/header.ts lines 290-320); native-word
setters dispatch on `typeof val`. -/
def ProgramHeader.set (b : Bytes) (le is32 : Bool) : PHField → JsVal → Option Bytes
  | .type, v => (jsToNumber v).map (fun n => writeU 4 le b 0 n)
  | .flags, v => (jsToNumber v).map (fun n => writeU 4 le b (if is32 then 0x18 else 4) n)
  | .offset, .num n => some (writeU 4 le b 4 n)
  | .offset, v => (jsToBigInt v).map (fun n => writeU 8 le b 8 n)
  | .vaddr, .num n => some (writeU 4 le b 8 n)
  | .vaddr, v => (jsToBigInt v).map (fun n => writeU 8 le b 0x10 n)
  | .paddr, .num n => some (writeU 4 le b 0x0c n)
  | .paddr, v => (jsToBigInt v).map (fun n => writeU 8 le b 0x18 n)
  | .filesz, .num n => some (writeU 4 le b 0x10 n)
  | .filesz, v => (jsToBigInt v).map (fun n => writeU 8 le b 0x20 n)
  | .memsz, .num n => some (writeU 4 le b 0x14 n)
  | .memsz, v => (jsToBigInt v).map (fun n => writeU 8 le b 0x28 n)
  | .align, .num n => some (writeU 4 le b 0x1c n)
  | .align, v => (jsToBigInt v).map (fun n => writeU 8 le b 0x30 n)

/-- `SectionHeader.type`: `getUint32(4)`. -/
def SectionHeader.typeN (b : Bytes) (le : Bool) : Nat := readU 4 le b 4

/-- `SectionHeader.offset`: `is32bit ? getUint32(0x10) : getBigUint64(0x18)`. -/
def SectionHeader.offsetN (b : Bytes) (le is32 : Bool) : Nat :=
  if is32 then readU 4 le b 0x10 else readU 8 le b 0x18

/-- `SectionHeader.size`: `is32bit ? getUint32(0x14) : getBigUint64(0x20)`. -/
def SectionHeader.sizeN (b : Bytes) (le is32 : Bool) : Nat :=
  if is32 then readU 4 le b 0x14 else readU 8 le b 0x20

/-- `SectionHeader.entsize`: `is32bit ? getUint32(0x24) : getBigUint64(0x38)`. -/
def SectionHeader.entsizeN (b : Bytes) (le is32 : Bool) : Nat :=
  if is32 then readU 4 le b 0x24 else readU 8 le b 0x38

/-- `SectionHeader.value`: `this.elf.buffer.slice(offset, offset + size)` -
a clamped window into the owning file's buffer. -/
def SectionHeader.value (elfBuf shBuf : Bytes) (le is32 : Bool) : Bytes :=
  bufSlice elfBuf (SectionHeader.offsetN shBuf le is32)
    (SectionHeader.offsetN shBuf le is32 + SectionHeader.sizeN shBuf le is32)

/-- The scalar fields of `Symbol`. -/
inductive SymField
  | name | value | size | info | other | shndx
deriving DecidableEq

/-- The `Symbol` getters (src/header.ts lines 493-515). -/
def Symbol.get (b : Bytes) (le is32 : Bool) : SymField → JsVal
  | .name => .num (readU 4 le b 0)
  | .value => if is32 then .num (readU 4 le b 4) else .big (readU 8 le b 8)
  | .size => if is32 then .num (readU 4 le b 8) else .big (readU 8 le b 16)
  | .info => .num (getUint8 b (if is32 then 12 else 4))
  | .other => .num (getUint8 b (if is32 then 13 else 5))
  | .shndx => .num (readU 2 le b (if is32 then 14 else 6))

/-- The `Symbol` setters (src/header.ts lines 517-539). -/
def Symbol.set (b : Bytes) (le is32 : Bool) : SymField → JsVal → Option Bytes
  | .name, v => (jsToNumber v).map (fun n => writeU 4 le b 0 n)
  | .value, .num n => some (writeU 4 le b 4 n)
  | .value, v => (jsToBigInt v).map (fun n => writeU 8 le b 8 n)
  | .size, .num n => some (writeU 4 le b 8 n)
  | .size, v => (jsToBigInt v).map (fun n => writeU 8 le b 16 n)
  | .info, v => (jsToNumber v).map (fun n => writeU 1 le b (if is32 then 12 else 4) n)
  | .other, v => (jsToNumber v).map (fun n => writeU 1 le b (if is32 then 13 else 5) n)
  | .shndx, v => (jsToNumber v).map (fun n => writeU 2 le b (if is32 then 14 else 6) n)

/-- A decoded `Rel` element: its (private) buffer and the constructor
argument `needsAddend`, which is `undefined` (`none`) when not supplied. -/
structure RelRec where
  bytes : Bytes
  needsAddend : Option Bool
deriving DecidableEq

/-- `Rel.FromBuffer(buffer, elf?, needsAddend?)`: constructs the element,
storing `needsAddend` exactly as passed (possibly `undefined`). -/
def Rel.FromBuffer (buffer : Bytes) (needsAddend : Option Bool) : RelRec :=
  ⟨buffer, needsAddend⟩

/-- The scalar fields of `Rel`. -/
inductive RelField
  | offset | info | added
deriving DecidableEq

/-- The `Rel` getters (src/header.ts lines 586-596).  `added` evaluates
`this.needsAddend && (...)`: `undefined` short-circuits to `undefined`,
`false` to `false`, and only `true` reaches the read. -/
def Rel.get (r : RelRec) (le is32 : Bool) : RelField → JsVal
  | .offset => if is32 then .num (readU 4 le r.bytes 0) else .big (readU 8 le r.bytes 0)
  | .info => if is32 then .num (readU 4 le r.bytes 4) else .big (readU 8 le r.bytes 8)
  | .added =>
    match r.needsAddend with
    | none => .undef
    | some false => .bool false
    | some true =>
      if is32 then .num (readU 4 le r.bytes 8) else .big (readU 8 le r.bytes 16)

/-- The `Rel` setters (src/header.ts lines 598-608); the `added` setter is
guarded by `this.needsAddend &&` and writes nothing when the flag is not
`true`. -/
def Rel.set (r : RelRec) (le is32 : Bool) : RelField → JsVal → Option RelRec
  | .offset, .num n => some { r with bytes := writeU 4 le r.bytes 0 n }
  | .offset, v => (jsToBigInt v).map (fun n => { r with bytes := writeU 8 le r.bytes 0 n })
  | .info, .num n => some { r with bytes := writeU 4 le r.bytes 4 n }
  | .info, v => (jsToBigInt v).map (fun n => { r with bytes := writeU 8 le r.bytes 8 n })
  | .added, v =>
    match r.needsAddend with
    | none => some r
    | some false => some r
    | some true =>
      match v with
      | .num n => some { r with bytes := writeU 4 le r.bytes 8 n }
      | v => (jsToBigInt v).map (fun n => { r with bytes := writeU 8 le r.bytes 16 n })

/-- The scalar fields of `Dyn`. -/
inductive DynField
  | tag | val | ptr
deriving DecidableEq

/-- Body of the `Dyn.val` getter: `is32bit ? getUint32(4) : getBigUint64(8)`. -/
def Dyn.getValB (b : Bytes) (le is32 : Bool) : JsVal :=
  if is32 then .num (readU 4 le b 4) else .big (readU 8 le b 8)

/-- Body of the `Dyn.val` setter (typeof dispatch at offsets 4/8). -/
def Dyn.setValB (b : Bytes) (le : Bool) (v : JsVal) : Option Bytes :=
  match v with
  | .num n => some (writeU 4 le b 4 n)
  | v => (jsToBigInt v).map (fun n => writeU 8 le b 8 n)

/-- The `Dyn` getters (src/header.ts lines 637-647); the `ptr` getter
returns `this.val`. -/
def Dyn.get (b : Bytes) (le is32 : Bool) : DynField → JsVal
  | .tag => if is32 then .num (readU 4 le b 0) else .big (readU 8 le b 0)
  | .val => Dyn.getValB b le is32
  | .ptr => Dyn.getValB b le is32

/-- The `Dyn` setters (src/header.ts lines 649-659); the `ptr` setter
assigns `this.val = val`. -/
def Dyn.set (b : Bytes) (le is32 : Bool) : DynField → JsVal → Option Bytes
  | .tag, .num n => some (writeU 4 le b 0 n)
  | .tag, v => (jsToBigInt v).map (fun n => writeU 8 le b 0 n)
  | .val, v => Dyn.setValB b le v
  | .ptr, v => Dyn.setValB b le v

/-- The scalar fields of `Note`. -/
inductive NoteField
  | namesz | descsz | type
deriving DecidableEq

/-- The `Note` getters (src/header.ts lines 689-699). -/
def Note.get (b : Bytes) (le is32 : Bool) : NoteField → JsVal
  | .namesz => if is32 then .num (readU 4 le b 0) else .big (readU 8 le b 0)
  | .descsz => if is32 then .num (readU 4 le b 4) else .big (readU 8 le b 8)
  | .type => if is32 then .num (readU 4 le b 8) else .big (readU 8 le b 16)

/-- The `Note` setters (src/header.ts lines 701-711). -/
def Note.set (b : Bytes) (le is32 : Bool) : NoteField → JsVal → Option Bytes
  | .namesz, .num n => some (writeU 4 le b 0 n)
  | .namesz, v => (jsToBigInt v).map (fun n => writeU 8 le b 0 n)
  | .descsz, .num n => some (writeU 4 le b 4 n)
  | .descsz, v => (jsToBigInt v).map (fun n => writeU 8 le b 8 n)
  | .type, .num n => some (writeU 4 le b 8 n)
  | .type, v => (jsToBigInt v).map (fun n => writeU 8 le b 16 n)

/-- The table-walk loop of `ELF.FromBuffer`:
`for (let i = off; i < stop; i += stride) push(Buffer.from(buffer.slice(i, i + stride)))`.
The `fuel` argument is the entry count: since `stop = off + count * stride`,
the loop body runs exactly `count` times when `stride > 0` and zero times
when `stride = 0` (the bound collapses to `off`), so `count` steps of fuel
reproduce the loop exactly. -/
def walkLoop (buffer : Bytes) (stride stop : Nat) : Nat → Nat → List Bytes
  | _, 0 => []
  | i, fuel + 1 =>
    if i < stop then
      bufSlice buffer i (i + stride) :: walkLoop buffer stride stop (i + stride) fuel
    else []

/-- One table walk of `ELF.FromBuffer` for a descriptor
`{offset, entrySize, count}`. -/
def walkTable (buffer : Bytes) (off stride count : Nat) : List Bytes :=
  walkLoop buffer stride (off + count * stride) off count

/-- The decoded-file object graph produced by `ELF.FromBuffer`:
`buffer` is the file buffer (also aliased by the header element, which is
constructed as `ELFHeader.FromBuffer(buffer)` on the same object);
`sectionHeaders` and `programHeaders` hold each element's own buffer,
which is a *copy* of its table window (`Buffer.from(buffer.slice(...))`
copies in Node), so the components are independent byte stores. -/
structure ELFState where
  buffer : Bytes
  sectionHeaders : List Bytes
  programHeaders : List Bytes
deriving DecidableEq

/-- `ELF.FromBuffer` (src/header.ts lines 875-893): decode the header's
table descriptors and walk both tables. -/
def ELF.FromBuffer (bufferLike : Bytes) : ELFState :=
  let buffer := bufferLike
  { buffer := buffer
    sectionHeaders :=
      walkTable buffer (ELFHeader.shoffN buffer) (ELFHeader.shentsizeN buffer)
        (ELFHeader.shnumN buffer)
    programHeaders :=
      walkTable buffer (ELFHeader.phoffN buffer) (ELFHeader.phentsizeN buffer)
        (ELFHeader.phnumN buffer) }

/-- `ELF.isLE`: `this.header.isLE`; the header's buffer is the file buffer. -/
def ELF.isLE (s : ELFState) : Bool := ELFHeader.isLE s.buffer

/-- `ELF.is32bit`: `this.header.is32bit`. -/
def ELF.is32bit (s : ELFState) : Bool := ELFHeader.is32bit s.buffer

/-- `ELFElement.isLE`, inherited by `SectionHeader`, `ProgramHeader`,
`Symbol`, `Rel`, `Dyn` and `Note`: `this.elf.isLE` (back-reference to the
owning decoded file, never duplicated state). -/
def ELFElement.isLE (s : ELFState) : Bool := ELF.isLE s

/-- `ELFElement.is32bit`, inherited likewise: `this.elf.is32bit`. -/
def ELFElement.is32bit (s : ELFState) : Bool := ELF.is32bit s

/-- The static interface of a record-element class as consumed by
`SectionHeader.getData` (`ELFElementConstructor<T>`): its `SH_TYPES`
list and its `FromBuffer` factory as invoked by `getData` (which passes
`(entBuffer, this.elf)` and never a third argument). -/
structure RecCtor (α : Type) where
  SH_TYPES : List Nat
  FromBuffer : Bytes → α

/-- `Symbol.SH_TYPES = [sh_type.SYMTAB, sh_type.DYNSYM]`. -/
def Symbol.SH_TYPES : List Nat := [sh_type.SYMTAB, sh_type.DYNSYM]

/-- `Rel.SH_TYPES = [sh_type.REL, sh_type.RELA]`. -/
def Rel.SH_TYPES : List Nat := [sh_type.REL, sh_type.RELA]

/-- `Dyn.SH_TYPES = [sh_type.DYNAMIC]`. -/
def Dyn.SH_TYPES : List Nat := [sh_type.DYNAMIC]

/-- `Note.SH_TYPES = [sh_type.NOTE]`. -/
def Note.SH_TYPES : List Nat := [sh_type.NOTE]

/-- `Symbol` as a `getData` argument; its elements are their buffers. -/
def Symbol.asCtor : RecCtor Bytes := ⟨Symbol.SH_TYPES, fun b => b⟩

/-- `Rel` as a `getData` argument: `getData` calls
`Rel.FromBuffer(entBuffer, this.elf)` with no third argument, so
`needsAddend` is `undefined` (`none`) for every extracted record. -/
def Rel.asCtor : RecCtor RelRec := ⟨Rel.SH_TYPES, fun b => Rel.FromBuffer b none⟩

/-- `Dyn` as a `getData` argument. -/
def Dyn.asCtor : RecCtor Bytes := ⟨Dyn.SH_TYPES, fun b => b⟩

/-- `Note` as a `getData` argument. -/
def Note.asCtor : RecCtor Bytes := ⟨Note.SH_TYPES, fun b => b⟩

/-- The two ways `SectionHeader.getData` can fail to return a list:
the `throw new TypeError('Invalid type')` guard, or the extraction loop
running forever (`noFuel` for every fuel bound). -/
inductive GetDataError
  | invalidType
  | noFuel
deriving DecidableEq

/-- The extraction loop of `SectionHeader.getData`:
`for (let i = 0; i < size; i += entsize) push(ctor.FromBuffer(Buffer.from(value.slice(i, i + entsize))))`.
`fuel` bounds the number of iterations; exhausting it models a loop that
has not terminated within that bound. -/
def getDataLoop {α : Type} (ctor : RecCtor α) (value : Bytes) (size entsize : Nat) :
    Nat → Nat → Except GetDataError (List α)
  | _, 0 => .error .noFuel
  | i, fuel + 1 =>
    if i < size then
      match getDataLoop ctor value size entsize (i + entsize) fuel with
      | .ok rest => .ok (ctor.FromBuffer (bufSlice value i (i + entsize)) :: rest)
      | .error e => .error e
    else .ok []

/-- `SectionHeader.getData` (src/header.ts lines 426-441): computes
`value`, rejects a section whose `type` is outside the record kind's
`SH_TYPES`, then chunks `value` into `entsize`-byte windows. -/
def SectionHeader.getData {α : Type} (ctor : RecCtor α) (elfBuf shBuf : Bytes)
    (le is32 : Bool) (fuel : Nat) : Except GetDataError (List α) :=
  let value := SectionHeader.value elfBuf shBuf le is32
  if ! ctor.SH_TYPES.contains (SectionHeader.typeN shBuf le) then
    .error .invalidType
  else
    getDataLoop ctor value (SectionHeader.sizeN shBuf le is32)
      (SectionHeader.entsizeN shBuf le is32) 0 fuel

-- Equality of `Except` results is decidable (used to evaluate the
-- embedding at concrete inputs).
deriving instance DecidableEq for Except

/-- Writing through the `type` setter of program header `k` of a decoded
file: `this.view.setUint32(0, val, this.isLE)` writes into `this.buffer`,
which for a table element is the private copy made during the walk
(`Buffer.from(buffer.slice(...))` copies), so only that component of the
object graph changes. -/
def ELFState.setPhType (s : ELFState) (k : Nat) (v : Nat) : ELFState :=
  let written := writeU 4 (ELFElement.isLE s) (s.programHeaders.getD k []) 0 v
  { s with programHeaders := s.programHeaders.set k written }

/-- Reading the `type` field of program header `k` of a decoded file
through the element's own getter. -/
def ELFState.getPhType (s : ELFState) (k : Nat) : JsVal :=
  ProgramHeader.get (s.programHeaders.getD k []) (ELFElement.isLE s)
    (ELFElement.is32bit s) PHField.type

/-- Width class of a field in the spec's layout tables. -/
inductive WClass
  | u8 | u16 | u32 | native
deriving DecidableEq

/-- Reading one field as the spec's layout tables prescribe: the row gives
the 32-bit offset, the 64-bit offset and the width class; `nativeWord`
resolves to u32 or u64 by the variant. -/
def specRead (b : Bytes) (le is32 : Bool) (row : Nat × Nat × WClass) : JsVal :=
  let off := if is32 then row.1 else row.2.1
  match row.2.2 with
  | .u8 => .num (getUint8 b off)
  | .u16 => .num (readU 2 le b off)
  | .u32 => .num (readU 4 le b off)
  | .native => if is32 then .num (readU 4 le b off) else .big (readU 8 le b off)

/-- The file-header layout table exactly as the spec states it
(32-bit offset, 64-bit offset, width). -/
def specEHRow : EHField → Nat × Nat × WClass
  | .type => (0x10, 0x10, .u16)
  | .machine => (0x12, 0x12, .u16)
  | .version => (0x14, 0x14, .u32)
  | .entry => (0x18, 0x18, .native)
  | .phoff => (0x1c, 0x20, .native)
  | .shoff => (0x20, 0x28, .native)
  | .flags => (0x24, 0x30, .u32)
  | .ehsize => (0x28, 0x34, .u16)
  | .phentsize => (0x2a, 0x36, .u16)
  | .phnum => (0x2c, 0x38, .u16)
  | .shentsize => (0x2e, 0x3a, .u16)
  | .shnum => (0x30, 0x3c, .u16)
  | .shstrndx => (0x32, 0x3e, .u16)

/-- Reading a file-header field per the spec's table, with the variant
derived from the buffer's identification bytes. -/
def specFileHeaderRead (b : Bytes) (f : EHField) : JsVal :=
  specRead b (ELFHeader.isLE b) (ELFHeader.is32bit b) (specEHRow f)

/-- The program-header layout table exactly as the spec states it; note
the claimed genuine layout move of `flags` (u32 at 0x18 in the 32-bit
layout, at 4 in the 64-bit layout). -/
def specPHRow : PHField → Nat × Nat × WClass
  | .type => (0, 0, .u32)
  | .flags => (0x18, 4, .u32)
  | .offset => (4, 8, .native)
  | .vaddr => (8, 0x10, .native)
  | .paddr => (0xc, 0x18, .native)
  | .filesz => (0x10, 0x20, .native)
  | .memsz => (0x14, 0x28, .native)
  | .align => (0x1c, 0x30, .native)

/-- Reading a program-header field per the spec's table. -/
def specProgramHeaderRead (b : Bytes) (le is32 : Bool) (f : PHField) : JsVal :=
  specRead b le is32 (specPHRow f)

/-- Build a byte buffer of length `len`, all zero except the given
`(index, value)` assignments (a test-fixture constructor). -/
def mkBuf (len : Nat) (assigns : List (Nat × Nat)) : Bytes :=
  assigns.foldl (fun b p => b.set p.1 p.2) (List.replicate len 0)

/-- Fixture for C1: a 96-byte 32-bit little-endian image whose header
declares one program header at offset 0x40 with entry size 0x20 and no
section headers; all program-header bytes are zero. -/
def c1buf : Bytes := mkBuf 96 [(4, 1), (5, 1), (0x1c, 0x40), (0x2a, 0x20), (0x2c, 1)]

/-- Fixture for C2: a 64-byte 32-bit little-endian image whose header
declares one section header at offset 0x34 with entry size 40, so the
single window [0x34, 0x5c) overruns the 64-byte buffer by 28 bytes. -/
def c2buf : Bytes := mkBuf 64 [(4, 1), (5, 1), (0x20, 0x34), (0x2e, 40), (0x30, 1)]

/-- Fixture for C3 (section descriptor): a 32-bit section header with
`type = RELA`, `offset = 0`, `size = 12`, `entsize = 12`. -/
def c3sh : Bytes := mkBuf 40 [(4, 4), (0x14, 12), (0x24, 12)]

/-- Fixture for C3 (file content): 12 bytes whose addend field (offset 8
of the sole relocation record) holds 0x99. -/
def c3elf : Bytes := mkBuf 12 [(8, 0x99)]

/-- Fixture for C4: a 64-byte little-endian 64-bit image (class byte 2),
all other bytes zero. -/
def c4buf : Bytes := mkBuf 64 [(4, 2), (5, 1)]

/-- Fixture for C8: a 64-byte 32-bit little-endian image whose header
declares one section header at offset 0x34 with entry size 0. -/
def c8buf : Bytes := mkBuf 64 [(4, 1), (5, 1), (0x20, 0x34), (0x30, 1)]

/-- Fixture for the C7 witness: a 32-bit section header with
`type = PROGBITS`. -/
def c7sh : Bytes := mkBuf 40 [(4, 1)]

/-- Fixture for the C10 witness: a 32-bit section header with
`type = SYMTAB`, `size = 4` and `entsize = 0`. -/
def c10sh : Bytes := mkBuf 40 [(4, 2), (0x14, 4)]

/-- Fixture for the C10 witness (part B): a 32-bit section header with
`type = SYMTAB`, `size = 48` and `entsize = 24`. -/
def c10shB : Bytes := mkBuf 40 [(4, 2), (0x14, 48), (0x24, 24)]


/-- An in-range ordinary number for a `w`-byte field. -/
def okNum (w : Nat) (v : JsVal) : Prop := ∃ n, v = .num n ∧ n < 256 ^ w

/-- A value whose JS representation matches the resolved native-word width:
an in-range ordinary number on the 32-bit variant, an in-range BigInt on
the 64-bit variant. -/
def okNative (is32 : Bool) (v : JsVal) : Prop :=
  if is32 then okNum 4 v else ∃ n, v = .big n ∧ n < 256 ^ 8

/-- Validity of a value for each settable file-header field. -/
def EHok (b : Bytes) : EHField → JsVal → Prop
  | .type, v => okNum 2 v
  | .machine, v => okNum 2 v
  | .version, v => okNum 4 v
  | .entry, v => okNative (ELFHeader.is32bit b) v
  | .phoff, v => okNative (ELFHeader.is32bit b) v
  | .shoff, v => okNative (ELFHeader.is32bit b) v
  | .flags, v => okNum 4 v
  | .ehsize, v => okNum 2 v
  | .phentsize, v => okNum 2 v
  | .phnum, v => okNum 2 v
  | .shentsize, v => okNum 2 v
  | .shnum, v => okNum 2 v
  | .shstrndx, v => okNum 2 v

/-- Validity of a value for each program-header field. -/
def PHok (is32 : Bool) : PHField → JsVal → Prop
  | .type, v => okNum 4 v
  | .flags, v => okNum 4 v
  | .offset, v => okNative is32 v
  | .vaddr, v => okNative is32 v
  | .paddr, v => okNative is32 v
  | .filesz, v => okNative is32 v
  | .memsz, v => okNative is32 v
  | .align, v => okNative is32 v

/-- Validity of a value for each symbol field. -/
def Symok (is32 : Bool) : SymField → JsVal → Prop
  | .name, v => okNum 4 v
  | .value, v => okNative is32 v
  | .size, v => okNative is32 v
  | .info, v => okNum 1 v
  | .other, v => okNum 1 v
  | .shndx, v => okNum 2 v

/-- Validity of a value for each relocation field (all native word). -/
def Relok (is32 : Bool) : RelField → JsVal → Prop := fun _ v => okNative is32 v

/-- Validity of a value for each dynamic-entry field (all native word). -/
def Dynok (is32 : Bool) : DynField → JsVal → Prop := fun _ v => okNative is32 v

/-- Validity of a value for each note field (all native word). -/
def Noteok (is32 : Bool) : NoteField → JsVal → Prop := fun _ v => okNative is32 v


theorem length_natToBytesLE (w v : Nat) : (natToBytesLE w v).length = w := by
  induction w generalizing v with
  | zero => rfl
  | succ w ih => simp [natToBytesLE, ih]

theorem length_bufSlice (b : Bytes) (start stop : Nat) :
    (bufSlice b start stop).length = min (stop - start) (b.length - start) := by
  simp [bufSlice]

theorem length_writeList (b : Bytes) (off : Nat) (l : List Nat)
    (h : off + l.length ≤ b.length) : (writeList b off l).length = b.length := by
  simp [writeList]
  omega

theorem take_length_of_le (b : Bytes) (off : Nat) (hoff : off ≤ b.length) :
    (b.take off).length = off := by
  rw [List.length_take, Nat.min_eq_left hoff]

theorem getD_writeList_lt (b : Bytes) (off : Nat) (l : List Nat) (i : Nat)
    (hi : i < off) (hoff : off ≤ b.length) :
    (writeList b off l).getD i 0 = b.getD i 0 := by
  have hlen := take_length_of_le b off hoff
  simp only [writeList, List.append_assoc, List.getD_eq_getElem?_getD,
    List.getElem?_append, List.getElem?_take, hlen, hi, if_true]

theorem getD_writeList_mid (b : Bytes) (off : Nat) (l : List Nat) (j : Nat)
    (hj : j < l.length) (hoff : off ≤ b.length) :
    (writeList b off l).getD (off + j) 0 = l.getD j 0 := by
  have hlen := take_length_of_le b off hoff
  simp only [writeList, List.append_assoc, List.getD_eq_getElem?_getD]
  rw [List.getElem?_append_right (by rw [hlen]; omega), hlen,
    Nat.add_sub_cancel_left, List.getElem?_append]
  simp [hj]

theorem getD_writeList_ge (b : Bytes) (off : Nat) (l : List Nat) (i : Nat)
    (hi : off + l.length ≤ i) (hoff : off + l.length ≤ b.length) :
    (writeList b off l).getD i 0 = b.getD i 0 := by
  have hoff2 : off ≤ b.length := by omega
  have hlen := take_length_of_le b off hoff2
  simp only [writeList, List.append_assoc, List.getD_eq_getElem?_getD]
  rw [List.getElem?_append_right (by rw [hlen]; omega), hlen,
    List.getElem?_append_right (by omega), List.getElem?_drop]
  congr 2
  omega

theorem readLEnat_congr (b c : Bytes) (off off' : Nat) (w : Nat)
    (h : ∀ j, j < w → b.getD (off + j) 0 = c.getD (off' + j) 0) :
    readLEnat b off w = readLEnat c off' w := by
  induction w generalizing off off' with
  | zero => rfl
  | succ w ih =>
    simp only [readLEnat]
    have h0 := h 0 (Nat.succ_pos w)
    simp only [Nat.add_zero] at h0
    rw [h0, ih (off + 1) (off' + 1) (fun j hj => by
      have h2 := h (j + 1) (by omega)
      have e1 : off + (j + 1) = off + 1 + j := by omega
      have e2 : off' + (j + 1) = off' + 1 + j := by omega
      rw [e1, e2] at h2
      exact h2)]

theorem readBEnat_congr (b c : Bytes) (off off' : Nat) (w : Nat)
    (h : ∀ j, j < w → b.getD (off + j) 0 = c.getD (off' + j) 0) :
    readBEnat b off w = readBEnat c off' w := by
  induction w generalizing off off' with
  | zero => rfl
  | succ w ih =>
    simp only [readBEnat]
    have h0 := h 0 (Nat.succ_pos w)
    simp only [Nat.add_zero] at h0
    rw [h0, ih (off + 1) (off' + 1) (fun j hj => by
      have h2 := h (j + 1) (by omega)
      have e1 : off + (j + 1) = off + 1 + j := by omega
      have e2 : off' + (j + 1) = off' + 1 + j := by omega
      rw [e1, e2] at h2
      exact h2)]

theorem readLEnat_cons (x : Nat) (l : Bytes) (off w : Nat) :
    readLEnat (x :: l) (off + 1) w = readLEnat l off w := by
  apply readLEnat_congr
  intro j hj
  simp [List.getD_eq_getElem?_getD, Nat.add_right_comm]

theorem readBEnat_cons (x : Nat) (l : Bytes) (off w : Nat) :
    readBEnat (x :: l) (off + 1) w = readBEnat l off w := by
  apply readBEnat_congr
  intro j hj
  simp [List.getD_eq_getElem?_getD, Nat.add_right_comm]

/-- Splitting a value modulo `256^(w+1)` into its low byte and the rest. -/
theorem mod_pow_split (v w : Nat) :
    v % 256 ^ (w + 1) = 256 * (v / 256 % 256 ^ w) + v % 256 := by
  rw [pow_succ, mul_comm (256 ^ w) 256, Nat.mod_mul]
  omega

theorem readLEnat_natToBytesLE (w v : Nat) :
    readLEnat (natToBytesLE w v) 0 w = v % 256 ^ w := by
  induction w generalizing v with
  | zero => simp [readLEnat, Nat.mod_one]
  | succ w ih =>
    simp only [natToBytesLE, readLEnat, List.getD_cons_zero]
    rw [show (0 + 1) = 1 from rfl]
    rw [show readLEnat (v % 256 :: natToBytesLE w (v / 256)) 1 w
          = readLEnat (natToBytesLE w (v / 256)) 0 w from readLEnat_cons _ _ 0 w]
    rw [ih, mod_pow_split]
    omega

theorem readBEnat_shift (b : Bytes) (w : Nat) :
    ∀ off, readBEnat b off (w + 1) = readBEnat b off w * 256 + b.getD (off + w) 0 := by
  induction w with
  | zero => intro off; simp [readBEnat]
  | succ w ih =>
    intro off
    have h1 : readBEnat b off (w + 1 + 1)
        = b.getD off 0 * 256 ^ (w + 1) + readBEnat b (off + 1) (w + 1) := rfl
    rw [h1, ih (off + 1)]
    have h2 : readBEnat b off (w + 1)
        = b.getD off 0 * 256 ^ w + readBEnat b (off + 1) w := rfl
    rw [h2]
    have e1 : off + 1 + w = off + (w + 1) := by omega
    rw [e1]
    ring

theorem readBEnat_reverse_natToBytesLE (w v : Nat) :
    readBEnat (natToBytesLE w v).reverse 0 w = v % 256 ^ w := by
  induction w generalizing v with
  | zero => simp [readBEnat, Nat.mod_one]
  | succ w ih =>
    have hrev : (natToBytesLE (w + 1) v).reverse
        = (natToBytesLE w (v / 256)).reverse ++ [v % 256] := by
      simp [natToBytesLE]
    rw [hrev, readBEnat_shift]
    have hlen : ((natToBytesLE w (v / 256)).reverse).length = w := by
      simp [length_natToBytesLE]
    have hgd : (((natToBytesLE w (v / 256)).reverse ++ [v % 256]).getD (0 + w) 0)
        = v % 256 := by
      rw [List.getD_append_right _ _ _ _ (by rw [hlen]; omega)]
      simp [hlen]
    rw [hgd]
    have hcongr : readBEnat ((natToBytesLE w (v / 256)).reverse ++ [v % 256]) 0 w
        = readBEnat (natToBytesLE w (v / 256)).reverse 0 w := by
      apply readBEnat_congr
      intro j hj
      rw [List.getD_append _ _ _ _ (by rw [hlen]; omega)]
    rw [hcongr, ih, mod_pow_split]
    omega

/-- Reading back a just-written `w`-byte field returns the stored value
modulo `2^(8w)` (either endianness). -/
theorem readU_writeU (w : Nat) (le : Bool) (b : Bytes) (off v : Nat)
    (h : off + w ≤ b.length) :
    readU w le (writeU w le b off v) off = v % 256 ^ w := by
  have hoff : off ≤ b.length := by omega
  cases le with
  | true =>
    have hlen : (natToBytesLE w v).length = w := length_natToBytesLE w v
    have hmid : ∀ j, j < w →
        (writeList b off (natToBytesLE w v)).getD (off + j) 0
          = (natToBytesLE w v).getD (0 + j) 0 := by
      intro j hj
      rw [Nat.zero_add]
      exact getD_writeList_mid b off _ j (by rw [hlen]; omega) hoff
    simp only [readU, writeU, if_true]
    rw [readLEnat_congr _ (natToBytesLE w v) off 0 w hmid]
    exact readLEnat_natToBytesLE w v
  | false =>
    have hlen : ((natToBytesLE w v).reverse).length = w := by
      simp [length_natToBytesLE]
    have hmid : ∀ j, j < w →
        (writeList b off (natToBytesLE w v).reverse).getD (off + j) 0
          = ((natToBytesLE w v).reverse).getD (0 + j) 0 := by
      intro j hj
      rw [Nat.zero_add]
      exact getD_writeList_mid b off _ j (by rw [hlen]; omega) hoff
    simp only [readU, writeU, Bool.false_eq_true, if_false]
    rw [readBEnat_congr _ ((natToBytesLE w v).reverse) off 0 w hmid]
    exact readBEnat_reverse_natToBytesLE w v

theorem length_writeU (w : Nat) (le : Bool) (b : Bytes) (off v : Nat)
    (h : off + w ≤ b.length) : (writeU w le b off v).length = b.length := by
  unfold writeU
  apply length_writeList
  cases le <;> simp [length_natToBytesLE] <;> omega

/-- Bytes outside the written window are untouched. -/
theorem getD_writeU_outside (w : Nat) (le : Bool) (b : Bytes) (off v i : Nat)
    (hi : i < off ∨ off + w ≤ i) (h : off + w ≤ b.length) :
    (writeU w le b off v).getD i 0 = b.getD i 0 := by
  have hlen : (if le then natToBytesLE w v else (natToBytesLE w v).reverse).length = w := by
    cases le <;> simp [length_natToBytesLE]
  unfold writeU
  rcases hi with hlt | hge
  · exact getD_writeList_lt b off _ i hlt (by omega)
  · exact getD_writeList_ge b off _ i (by rw [hlen]; omega) (by rw [hlen]; omega)

/-- A read whose window is disjoint from a written window is unchanged. -/
theorem readU_writeU_disjoint (w w' : Nat) (le le' : Bool) (b : Bytes)
    (off off' v : Nat) (hd : off' + w' ≤ off ∨ off + w ≤ off')
    (h : off + w ≤ b.length) :
    readU w' le' (writeU w le b off v) off' = readU w' le' b off' := by
  have hpt : ∀ j, j < w' →
      (writeU w le b off v).getD (off' + j) 0 = b.getD (off' + j) 0 := by
    intro j hj
    exact getD_writeU_outside w le b off v (off' + j) (by omega) h
  cases le' with
  | true =>
    simp only [readU, if_true]
    exact readLEnat_congr _ b off' off' w' hpt
  | false =>
    simp only [readU, Bool.false_eq_true, if_false]
    exact readBEnat_congr _ b off' off' w' hpt

theorem roundtrip_field (w : Nat) (le : Bool) (b : Bytes) (off v : Nat)
    (h : off + w ≤ b.length) (hv : v < 256 ^ w) :
    readU w le (writeU w le b off v) off = v := by
  rw [readU_writeU w le b off v h, Nat.mod_eq_of_lt hv]

theorem isLE_writeU (w : Nat) (le : Bool) (b : Bytes) (off v : Nat)
    (hoff : 6 ≤ off) (h : off + w ≤ b.length) :
    ELFHeader.isLE (writeU w le b off v) = ELFHeader.isLE b := by
  unfold ELFHeader.isLE getUint8
  rw [getD_writeU_outside w le b off v 5 (Or.inl (by omega)) h]

theorem is32_writeU (w : Nat) (le : Bool) (b : Bytes) (off v : Nat)
    (hoff : 6 ≤ off) (h : off + w ≤ b.length) :
    ELFHeader.is32bit (writeU w le b off v) = ELFHeader.is32bit b := by
  unfold ELFHeader.is32bit getUint8
  rw [getD_writeU_outside w le b off v 4 (Or.inl (by omega)) h]

theorem getD_map_range {α : Type} (f : Nat → α) (n i : Nat) (hi : i < n) (d : α) :
    ((List.range n).map f).getD i d = f i := by
  rw [List.getD_eq_getElem?_getD, List.getElem?_map, List.getElem?_range hi]
  rfl

/-- C5: the file header's fields are decoded at exactly the byte offsets
and widths of the spec's layout table, selected by word width (type
u16@0x10, machine u16@0x12, version u32@0x14, entry nativeWord@0x18 in
both layouts, phoff@0x1c/0x20, shoff@0x20/0x28, flags u32@0x24/0x30,
ehsize u16@0x28/0x34, phentsize u16@0x2a/0x36, phnum u16@0x2c/0x38,
shentsize u16@0x2e/0x3a, shnum u16@0x30/0x3c, shstrndx u16@0x32/0x3e). -/
theorem c5_fileheader_layout (b : Bytes) (f : EHField) :
    ELFHeader.get b f = specFileHeaderRead b f := by
  cases f <;>
    simp only [ELFHeader.get, specFileHeaderRead, specRead, specEHRow] <;>
    cases ELFHeader.is32bit b <;> simp

/-- C6: program-header fields are decoded at exactly the spec's offsets
for each word width; in particular `flags` is a u32 at 0x18 in the 32-bit
layout but at 4 in the 64-bit layout - a genuine layout move. -/
theorem c6_programheader_layout (b : Bytes) (le is32 : Bool) (f : PHField) :
    ProgramHeader.get b le is32 f = specProgramHeaderRead b le is32 f := by
  cases f <;>
    simp only [ProgramHeader.get, specProgramHeaderRead, specRead, specPHRow] <;>
    cases is32 <;> simp

/-- C9: every element reachable from a decoded file reports the variant
derived from the input buffer's identification bytes - byte 4 equal to 1
means 32-bit and byte 5 equal to 1 means little-endian - through the
back-reference delegation chain (record/section/program element to `elf`
to header to identification bytes), so all elements of one decoded file
agree. -/
theorem c9_variant_uniform (input : Bytes) :
    ELFElement.isLE (ELF.FromBuffer input) = (getUint8 input 5 == 1)
    ∧ ELFElement.is32bit (ELF.FromBuffer input) = (getUint8 input 4 == 1)
    ∧ ELF.isLE (ELF.FromBuffer input) = ELFElement.isLE (ELF.FromBuffer input)
    ∧ ELF.is32bit (ELF.FromBuffer input) = ELFElement.is32bit (ELF.FromBuffer input)
    ∧ ELFHeader.isLE (ELF.FromBuffer input).buffer = ELFElement.isLE (ELF.FromBuffer input)
    ∧ ELFHeader.is32bit (ELF.FromBuffer input).buffer = ELFElement.is32bit (ELF.FromBuffer input) :=
  ⟨rfl, rfl, rfl, rfl, rfl, rfl⟩

/-- C7: extracting records through `SectionHeader.getData` with a record
kind whose `SH_TYPES` affinity excludes the section's type tag always
fails with the invalid-type error and produces no elements, for every
record kind, section, variant and fuel bound; and the four record kinds
declare exactly the affinity sets Symbol ← {SYMTAB, DYNSYM},
Relocation ← {REL, RELA}, DynamicEntry ← {DYNAMIC}, Note ← {NOTE}. -/
theorem c7_invalid_type :
    (∀ (α : Type) (ctor : RecCtor α) (elfBuf shBuf : Bytes) (le is32 : Bool) (fuel : Nat),
      ctor.SH_TYPES.contains (SectionHeader.typeN shBuf le) = false →
      SectionHeader.getData ctor elfBuf shBuf le is32 fuel = .error .invalidType)
    ∧ Symbol.SH_TYPES = [sh_type.SYMTAB, sh_type.DYNSYM]
    ∧ Rel.SH_TYPES = [sh_type.REL, sh_type.RELA]
    ∧ Dyn.SH_TYPES = [sh_type.DYNAMIC]
    ∧ Note.SH_TYPES = [sh_type.NOTE] := by
  refine ⟨?_, rfl, rfl, rfl, rfl⟩
  intro α ctor elfBuf shBuf le is32 fuel h
  simp only [SectionHeader.getData, h, Bool.not_false, if_true]

/-- Witness for C7: extracting Symbol records from a PROGBITS section
fails with the invalid-type error. -/
theorem c7_invalid_type_witness :
    SectionHeader.getData Symbol.asCtor c3elf c7sh true true 5 = .error .invalidType :=
  c7_invalid_type.1 Bytes Symbol.asCtor c3elf c7sh true true 5 (by decide)

/-- Counterexample to C1: in the decoded file of `c1buf` (one program
header covering file bytes [0x40, 0x60)), writing 7 through that program
header's `type` setter leaves the decoded file's buffer bit-for-bit
unchanged (the byte at the field's computed file offset 0x40 still reads
0), even though reading back through the same element returns 7: table
elements hold private copies (`Buffer.from(buffer.slice(...))`), not views
into the shared file buffer. -/
theorem c1_counterexample :
    (ELFState.setPhType (ELF.FromBuffer c1buf) 0 7).buffer = c1buf
    ∧ getUint8 (ELFState.setPhType (ELF.FromBuffer c1buf) 0 7).buffer 0x40 = 0
    ∧ ELFState.getPhType (ELFState.setPhType (ELF.FromBuffer c1buf) 0 7) 0 = .num 7 := by
  refine ⟨rfl, by decide, by decide⟩

/-- Counterexample to C2: decoding `c2buf` (one declared section-header
window [0x34, 0x5c) in a 64-byte buffer) does not fail with a bounds
error; the walk completes and yields one silently truncated view of 12
bytes instead of the declared 40. -/
theorem c2_counterexample :
    (ELF.FromBuffer c2buf).sectionHeaders.length = 1
    ∧ ELFHeader.shentsizeN c2buf = 40
    ∧ ((ELF.FromBuffer c2buf).sectionHeaders.getD 0 []).length = 12 := by
  refine ⟨by decide, by decide, by decide⟩

/-- C3 as evaluated on the failing input: extracting relocation records
from a RELA-typed section yields records whose `needsAddend` is
`undefined` (`getData` never passes the flag), so the `added` getter
returns `undefined` instead of the addend stored at native-word offset 8,
contradicting both the claim and the evident intent of
`Rel(buffer, elf, needsAddend)` / `Rel.SH_TYPES = [REL, RELA]`. -/
theorem c3_rela_no_addend :
    SectionHeader.typeN c3sh true = sh_type.RELA
    ∧ SectionHeader.getData Rel.asCtor c3elf c3sh true true 13
        = .ok [Rel.FromBuffer c3elf none]
    ∧ Rel.get (Rel.FromBuffer c3elf none) true true .added = .undef
    ∧ readU 4 true c3elf 8 = 0x99 := by
  refine ⟨by decide, by decide, by decide, by decide⟩

/-- Counterexample to C4: on a 64-bit little-endian file, writing the
ordinary number 5 through the file header's `phoff` setter and reading
back through the `phoff` getter returns the wide integer 0, not 5: the
setter dispatches on the value's JS type and writes a u32 at the 32-bit
layout offset 0x1c, while the getter reads a u64 at the 64-bit layout
offset 0x20. -/
theorem c4_counterexample :
    ELFHeader.is32bit c4buf = false
    ∧ (ELFHeader.set c4buf .phoff (.num 5)).map (fun b => ELFHeader.get b .phoff)
        = some (.big 0)
    ∧ JsVal.big 0 ≠ JsVal.num 5 := by
  refine ⟨by decide, by decide, by decide⟩

/-- Counterexample to C8: decoding `c8buf`, whose section-header table
descriptor declares count 1 with entry size 0, produces 0 elements, not
the declared 1: the loop bound `shoff + shnum * shentsize` collapses to
`shoff` when the entry size is 0. -/
theorem c8_counterexample :
    ELFHeader.shnumN c8buf = 1
    ∧ ELFHeader.shentsizeN c8buf = 0
    ∧ (ELF.FromBuffer c8buf).sectionHeaders.length = 0 := by
  refine ⟨by decide, by decide, by decide⟩

theorem walkLoop_pos (buffer : Bytes) (stride : Nat) (hs : 0 < stride) :
    ∀ (n i : Nat),
      walkLoop buffer stride (i + n * stride) i n
        = (List.range n).map
            (fun j => bufSlice buffer (i + j * stride) (i + j * stride + stride)) := by
  intro n
  induction n with
  | zero => intro i; rfl
  | succ n ih =>
    intro i
    have hlt : i < i + (n + 1) * stride := by
      have : 0 < (n + 1) * stride := Nat.mul_pos (Nat.succ_pos n) hs
      omega
    have hstep : walkLoop buffer stride (i + (n + 1) * stride) i (n + 1)
        = bufSlice buffer i (i + stride)
            :: walkLoop buffer stride (i + (n + 1) * stride) (i + stride) n := by
      simp [walkLoop, hlt]
    have hstop : i + (n + 1) * stride = (i + stride) + n * stride := by ring
    rw [hstep, hstop, ih (i + stride), List.range_succ_eq_map, List.map_cons,
      List.map_map]
    have hhead : bufSlice buffer (i + 0 * stride) (i + 0 * stride + stride)
        = bufSlice buffer i (i + stride) := by norm_num
    rw [hhead]
    congr 1
    apply List.map_congr_left
    intro j hj
    simp only [Function.comp_apply, Nat.succ_eq_add_one]
    have e1 : i + stride + j * stride = i + (j + 1) * stride := by ring
    rw [e1]

theorem walkTable_spec (buffer : Bytes) (off stride count : Nat) (hs : 0 < stride) :
    walkTable buffer off stride count
      = (List.range count).map
          (fun j => bufSlice buffer (off + j * stride) (off + j * stride + stride)) :=
  walkLoop_pos buffer stride hs count off

theorem walkTable_zero_stride (buffer : Bytes) (off count : Nat) :
    walkTable buffer off 0 count = [] := by
  cases count with
  | zero => rfl
  | succ n =>
    simp [walkTable, walkLoop]

theorem length_walkTable (buffer : Bytes) (off stride count : Nat) (hs : 0 < stride) :
    (walkTable buffer off stride count).length = count := by
  rw [walkTable_spec buffer off stride count hs]
  simp

theorem bufSlice_window (b : Bytes) (s w : Nat) :
    bufSlice b s (s + w) = (b.drop s).take w := by
  simp [bufSlice]

/-- C8 (amended): when the entry size is positive and the table fits in
the buffer, walking a table descriptor `{offset, entrySize, count = N}`
produces exactly `N` elements and element `i`'s window is exactly the
bytes `[offset + i*entrySize, offset + (i+1)*entrySize)`; the decoded
file's section- and program-header lists are exactly such walks.  (As
stated the claim fails when the entry size is 0: the walk then produces
no elements.) -/
theorem c8_table_walk (buffer : Bytes) (off stride count : Nat)
    (hs : 0 < stride) (hb : off + count * stride ≤ buffer.length) :
    (walkTable buffer off stride count).length = count
    ∧ (∀ i, i < count →
        (walkTable buffer off stride count).getD i []
          = (buffer.drop (off + i * stride)).take stride
        ∧ ((walkTable buffer off stride count).getD i []).length = stride)
    ∧ (ELF.FromBuffer buffer).sectionHeaders
        = walkTable buffer (ELFHeader.shoffN buffer) (ELFHeader.shentsizeN buffer)
            (ELFHeader.shnumN buffer)
    ∧ (ELF.FromBuffer buffer).programHeaders
        = walkTable buffer (ELFHeader.phoffN buffer) (ELFHeader.phentsizeN buffer)
            (ELFHeader.phnumN buffer) := by
  refine ⟨length_walkTable buffer off stride count hs, ?_, rfl, rfl⟩
  intro i hi
  have hwin : (walkTable buffer off stride count).getD i []
      = (buffer.drop (off + i * stride)).take stride := by
    rw [walkTable_spec buffer off stride count hs, getD_map_range _ count i hi,
      bufSlice_window]
  refine ⟨hwin, ?_⟩
  rw [hwin]
  have hmul : (i + 1) * stride ≤ count * stride :=
    Nat.mul_le_mul_right stride (by omega)
  simp only [List.length_take, List.length_drop]
  have : i * stride + stride ≤ count * stride := by
    have e1 : (i + 1) * stride = i * stride + stride := by ring
    omega
  omega

/-- Witness for C8 (amended): walking the program-header table of `c1buf`
(offset 0x40, entry size 0x20, count 1, 96-byte buffer) yields one
element of exactly 0x20 bytes. -/
theorem c8_table_walk_witness :
    (walkTable c1buf 0x40 0x20 1).length = 1
    ∧ ((walkTable c1buf 0x40 0x20 1).getD 0 []).length = 0x20 := by
  have h := c8_table_walk c1buf 0x40 0x20 1 (by decide) (by decide)
  exact ⟨h.1, ((h.2.1 0 (by decide)).2)⟩

/-- C2 (amended): no bounds check is performed anywhere on the table walk
or on record extraction: for any descriptor with positive entry size the
walk always completes with `count` windows, each window being the
`slice`-clamped bytes `min(entrySize, length - start)`; record-extraction
windows are likewise clamped slices of the (already clamped) section
content.  Overrun surfaces as silently truncated views, not as an error
of the walk. -/
theorem c2_clamped_windows (buffer : Bytes) (off stride count : Nat) (hs : 0 < stride) :
    (walkTable buffer off stride count).length = count
    ∧ (∀ i, i < count →
        (walkTable buffer off stride count).getD i []
          = (buffer.drop (off + i * stride)).take stride
        ∧ ((walkTable buffer off stride count).getD i []).length
            = min stride (buffer.length - (off + i * stride)))
    ∧ (∀ (elfBuf shBuf : Bytes) (le is32 : Bool),
        SectionHeader.value elfBuf shBuf le is32
          = (elfBuf.drop (SectionHeader.offsetN shBuf le is32)).take
              (SectionHeader.sizeN shBuf le is32)
        ∧ (SectionHeader.value elfBuf shBuf le is32).length
            = min (SectionHeader.sizeN shBuf le is32)
                (elfBuf.length - SectionHeader.offsetN shBuf le is32)) := by
  refine ⟨length_walkTable buffer off stride count hs, ?_, ?_⟩
  · intro i hi
    have hwin : (walkTable buffer off stride count).getD i []
        = (buffer.drop (off + i * stride)).take stride := by
      rw [walkTable_spec buffer off stride count hs, getD_map_range _ count i hi,
        bufSlice_window]
    refine ⟨hwin, ?_⟩
    rw [hwin]
    simp [List.length_take, List.length_drop]
  · intro elfBuf shBuf le is32
    constructor
    · rw [SectionHeader.value, bufSlice_window]
    · rw [SectionHeader.value, bufSlice_window]
      simp [List.length_take, List.length_drop]

/-- Witness for C2 (amended): the single declared window of `c2buf`
(start 0x34, entry size 40, 64-byte buffer) comes back clamped to
`min 40 (64 - 0x34) = 12` bytes. -/
theorem c2_clamped_windows_witness :
    ((walkTable c2buf 0x34 40 1).getD 0 []).length = min 40 (c2buf.length - 0x34) :=
  ((c2_clamped_windows c2buf 0x34 40 1 (by decide)).2.1 0 (by decide)).2

theorem ceil_step (d e : Nat) (hd : 0 < d) (he : 0 < e) :
    (d + e - 1) / e = (d - e + e - 1) / e + 1 := by
  rcases Nat.lt_or_ge d e with h | h
  · have h1 : d - e = 0 := by omega
    have h2 : d + e - 1 = (d - 1) + e := by omega
    rw [h1, h2, Nat.add_div_right _ he, Nat.div_eq_of_lt (by omega),
      Nat.div_eq_of_lt (by omega)]
  · have h2 : d + e - 1 = (d - e + e - 1) + e := by omega
    rw [h2, Nat.add_div_right _ he]

theorem getDataLoop_ok {α : Type} (ctor : RecCtor α) (value : Bytes)
    (size e : Nat) (he : 0 < e) :
    ∀ (fuel i : Nat), size ≤ i + e * fuel →
      getDataLoop ctor value size e i (fuel + 1)
        = .ok ((List.range ((size - i + e - 1) / e)).map
            (fun j => ctor.FromBuffer (bufSlice value (i + j * e) (i + j * e + e)))) := by
  intro fuel
  induction fuel with
  | zero =>
    intro i hle
    have hnot : ¬ i < size := by omega
    have hz : size - i = 0 := by omega
    have hdiv : (size - i + e - 1) / e = 0 := by
      rw [hz]
      exact Nat.div_eq_of_lt (by omega)
    simp [getDataLoop, hnot, hdiv]
  | succ fuel ih =>
    intro i hle
    by_cases hil : i < size
    · have hmul : e * (fuel + 1) = e * fuel + e := by ring
      have hrec := ih (i + e) (by omega)
      have hstep : getDataLoop ctor value size e i (fuel + 1 + 1)
          = match getDataLoop ctor value size e (i + e) (fuel + 1) with
            | .ok rest => .ok (ctor.FromBuffer (bufSlice value i (i + e)) :: rest)
            | .error err => .error err := by
        simp [getDataLoop, hil]
      rw [hstep, hrec]
      have hceil : (size - i + e - 1) / e = (size - (i + e) + e - 1) / e + 1 := by
        have e1 : size - (i + e) = size - i - e := by omega
        rw [e1]
        exact ceil_step (size - i) e (by omega) he
      rw [hceil, List.range_succ_eq_map, List.map_cons, List.map_map]
      have hhead : ctor.FromBuffer (bufSlice value (i + 0 * e) (i + 0 * e + e))
          = ctor.FromBuffer (bufSlice value i (i + e)) := by norm_num
      simp only [hhead]
      congr 1
      congr 1
      apply List.map_congr_left
      intro j hj
      simp only [Function.comp_apply, Nat.succ_eq_add_one]
      have e1 : i + (j + 1) * e = i + e + j * e := by ring
      rw [e1]
    · have hnot : ¬ i < size := hil
      have hz : size - i = 0 := by omega
      have hdiv : (size - i + e - 1) / e = 0 := by
        rw [hz]
        exact Nat.div_eq_of_lt (by omega)
      simp [getDataLoop, hnot, hdiv]

theorem getDataLoop_zero_stride {α : Type} (ctor : RecCtor α) (value : Bytes)
    (size : Nat) :
    ∀ (fuel i : Nat), i < size →
      getDataLoop ctor value size 0 i fuel = .error .noFuel := by
  intro fuel
  induction fuel with
  | zero => intro i hi; rfl
  | succ fuel ih =>
    intro i hi
    have hrec : getDataLoop ctor value size 0 (i + 0) fuel = .error .noFuel := ih i hi
    simp only [getDataLoop, if_pos hi, hrec]

/-- C10: for a section whose type passes the record kind's affinity
check, record extraction terminates only when the entry size is positive
or the size is zero: with `size > 0` and `entsize = 0` the loop runs out
of any fuel bound (it never terminates); with `entsize > 0` it terminates
and yields exactly `ceil(size / entsize)` records; with
`size = 0 = entsize` it terminates immediately with no records. -/
theorem c10_getdata_termination {α : Type} (ctor : RecCtor α) (elfBuf shBuf : Bytes)
    (le is32 : Bool)
    (hc : ctor.SH_TYPES.contains (SectionHeader.typeN shBuf le) = true) :
    (SectionHeader.entsizeN shBuf le is32 = 0 → 0 < SectionHeader.sizeN shBuf le is32 →
      ∀ fuel, SectionHeader.getData ctor elfBuf shBuf le is32 fuel = .error .noFuel)
    ∧ (0 < SectionHeader.entsizeN shBuf le is32 →
      ∃ l, SectionHeader.getData ctor elfBuf shBuf le is32
              (SectionHeader.sizeN shBuf le is32 + 1) = .ok l
        ∧ l.length = (SectionHeader.sizeN shBuf le is32
              + SectionHeader.entsizeN shBuf le is32 - 1)
            / SectionHeader.entsizeN shBuf le is32)
    ∧ (SectionHeader.entsizeN shBuf le is32 = 0 →
        SectionHeader.sizeN shBuf le is32 = 0 →
      SectionHeader.getData ctor elfBuf shBuf le is32 1 = .ok []) := by
  have hgd : ∀ fuel, SectionHeader.getData ctor elfBuf shBuf le is32 fuel
      = getDataLoop ctor (SectionHeader.value elfBuf shBuf le is32)
          (SectionHeader.sizeN shBuf le is32) (SectionHeader.entsizeN shBuf le is32)
          0 fuel := by
    intro fuel
    simp only [SectionHeader.getData, hc, Bool.not_true, Bool.false_eq_true, if_false]
  refine ⟨?_, ?_, ?_⟩
  · intro he0 hsz fuel
    rw [hgd fuel, he0]
    exact getDataLoop_zero_stride ctor _ _ fuel 0 hsz
  · intro he
    have hml : SectionHeader.sizeN shBuf le is32
        ≤ 0 + SectionHeader.entsizeN shBuf le is32 * SectionHeader.sizeN shBuf le is32 := by
      have := Nat.le_mul_of_pos_left (SectionHeader.sizeN shBuf le is32) he
      omega
    have h := getDataLoop_ok ctor (SectionHeader.value elfBuf shBuf le is32)
      (SectionHeader.sizeN shBuf le is32) (SectionHeader.entsizeN shBuf le is32) he
      (SectionHeader.sizeN shBuf le is32) 0 hml
    exact ⟨_, by rw [hgd (SectionHeader.sizeN shBuf le is32 + 1)]; exact h, by simp⟩
  · intro he0 hs0
    rw [hgd 1, he0, hs0]
    simp [getDataLoop]

/-- Witness for C10: a SYMTAB section with size 4 and entry size 0 makes
`getData` exhaust any fuel (here 3); one with size 48 and entry size 24
yields a list of `ceil(48/24) = 2` records. -/
theorem c10_getdata_termination_witness :
    (SectionHeader.getData Symbol.asCtor c3elf c10sh true true 3 = .error .noFuel)
    ∧ ∃ l, SectionHeader.getData Symbol.asCtor c3elf c10shB true true
          (SectionHeader.sizeN c10shB true true + 1) = .ok l
        ∧ l.length = (SectionHeader.sizeN c10shB true true
            + SectionHeader.entsizeN c10shB true true - 1)
            / SectionHeader.entsizeN c10shB true true := by
  constructor
  · exact (c10_getdata_termination Symbol.asCtor c3elf c10sh true true
      (by decide)).1 (by decide) (by decide) 3
  · exact (c10_getdata_termination Symbol.asCtor c3elf c10shB true true
      (by decide)).2.1 (by decide)

/-- C1 (amended): only the file-header element's buffer aliases the
decoded file's buffer; section headers, program headers and extracted
records hold private copies made at walk/extraction time
(`Buffer.from(buffer.slice(...))` copies), so a write through such an
element's setter updates only that element's own buffer - the file
buffer and every other element are unchanged - while reading back
through the same element does see the new value. -/
theorem c1_private_copy_writes (input : Bytes) (k v : Nat) :
    (ELFState.setPhType (ELF.FromBuffer input) k v).buffer = input
    ∧ (ELFState.setPhType (ELF.FromBuffer input) k v).sectionHeaders
        = (ELF.FromBuffer input).sectionHeaders
    ∧ (∀ j, j ≠ k →
        (ELFState.setPhType (ELF.FromBuffer input) k v).programHeaders.getD j []
          = (ELF.FromBuffer input).programHeaders.getD j [])
    ∧ (k < (ELF.FromBuffer input).programHeaders.length →
        4 ≤ ((ELF.FromBuffer input).programHeaders.getD k []).length →
        v < 256 ^ 4 →
        ELFState.getPhType (ELFState.setPhType (ELF.FromBuffer input) k v) k = .num v) := by
  refine ⟨rfl, rfl, ?_, ?_⟩
  · intro j hj
    simp only [ELFState.setPhType, List.getD_eq_getElem?_getD]
    rw [List.getElem?_set_ne (Ne.symm hj)]
  · intro hk hlen hv
    have hgetD : (ELFState.setPhType (ELF.FromBuffer input) k v).programHeaders.getD k []
        = writeU 4 (ELFElement.isLE (ELF.FromBuffer input))
            ((ELF.FromBuffer input).programHeaders.getD k []) 0 v := by
      simp only [ELFState.setPhType]
      rw [List.getD_eq_getElem?_getD, List.getElem?_set_self hk]
      rfl
    unfold ELFState.getPhType
    rw [hgetD]
    simp only [ProgramHeader.get]
    have hle : ELFElement.isLE (ELFState.setPhType (ELF.FromBuffer input) k v)
        = ELFElement.isLE (ELF.FromBuffer input) := rfl
    rw [hle, roundtrip_field 4 (ELFElement.isLE (ELF.FromBuffer input))
      ((ELF.FromBuffer input).programHeaders.getD k []) 0 v (by omega) hv]

/-- Witness for C1 (amended): on `c1buf`, writing 7 through program
header 0's `type` setter leaves the file buffer unchanged and reads back
as 7 through the element itself. -/
theorem c1_private_copy_writes_witness :
    (ELFState.setPhType (ELF.FromBuffer c1buf) 0 7).buffer = c1buf
    ∧ ELFState.getPhType (ELFState.setPhType (ELF.FromBuffer c1buf) 0 7) 0 = .num 7 := by
  have h := c1_private_copy_writes c1buf 0 7
  exact ⟨h.1, h.2.2.2 (by decide) (by decide) (by decide)⟩

theorem getUint8_eq_readU1 (b : Bytes) (off : Nat) (le : Bool) :
    getUint8 b off = readU 1 le b off := by
  cases le <;> simp [getUint8, readU, readLEnat, readBEnat]

/-- C4 (amended): for every field that has a setter (file header, program
header, symbol, relocation with its has-addend flag set, dynamic entry,
note - section headers expose no setters), under both word widths and
both endiannesses, writing an in-range value whose JS representation
matches the field's resolved width (ordinary number for fixed-width
fields and for the 32-bit native word, wide integer for the 64-bit
native word) and reading back through the same field's getter returns the
value.  (As stated the claim fails: a native-word setter dispatches on
the value's JS type, so an ordinary number written to a 64-bit file's
native-word field lands at the 32-bit layout offset and does not
round-trip - see the counterexample.) -/
theorem c4_roundtrip :
    (∀ (b : Bytes) (f : EHField) (v : JsVal),
      (if ELFHeader.is32bit b then (0x34:Nat) else 0x40) ≤ b.length → EHok b f v →
      (ELFHeader.set b f v).map (fun b2 => ELFHeader.get b2 f) = some v)
    ∧ (∀ (b : Bytes) (le is32 : Bool) (f : PHField) (v : JsVal),
      (if is32 then (0x20:Nat) else 0x38) ≤ b.length → PHok is32 f v →
      (ProgramHeader.set b le is32 f v).map
        (fun b2 => ProgramHeader.get b2 le is32 f) = some v)
    ∧ (∀ (b : Bytes) (le is32 : Bool) (f : SymField) (v : JsVal),
      (if is32 then (16:Nat) else 24) ≤ b.length → Symok is32 f v →
      (Symbol.set b le is32 f v).map (fun b2 => Symbol.get b2 le is32 f) = some v)
    ∧ (∀ (r : RelRec) (le is32 : Bool) (f : RelField) (v : JsVal),
      (if is32 then (12:Nat) else 24) ≤ r.bytes.length → r.needsAddend = some true →
      Relok is32 f v →
      (Rel.set r le is32 f v).map (fun r2 => Rel.get r2 le is32 f) = some v)
    ∧ (∀ (b : Bytes) (le is32 : Bool) (f : DynField) (v : JsVal),
      (if is32 then (8:Nat) else 16) ≤ b.length → Dynok is32 f v →
      (Dyn.set b le is32 f v).map (fun b2 => Dyn.get b2 le is32 f) = some v)
    ∧ (∀ (b : Bytes) (le is32 : Bool) (f : NoteField) (v : JsVal),
      (if is32 then (12:Nat) else 24) ≤ b.length → Noteok is32 f v →
      (Note.set b le is32 f v).map (fun b2 => Note.get b2 le is32 f) = some v) := by
  refine ⟨?_, ?_, ?_, ?_, ?_, ?_⟩
  · intro b f v hlen hok
    cases f <;> cases hc : ELFHeader.is32bit b <;>
      rw [hc] at hlen <;>
      simp [EHok, okNative, okNum, hc] at hok <;>
      simp at hlen <;>
      obtain ⟨n, rfl, hn⟩ := hok <;>
      simp [ELFHeader.set, ELFHeader.get, jsToNumber, jsToBigInt, hc] <;>
      rw [isLE_writeU _ _ _ _ _ (by omega) (by omega)] <;>
      (try rw [is32_writeU _ _ _ _ _ (by omega) (by omega), hc]) <;>
      (try simp) <;>
      exact roundtrip_field _ _ b _ n (by omega) hn
  · intro b le is32 f v hlen hok
    cases f <;> cases is32 <;>
      simp [PHok, okNative, okNum] at hok <;>
      simp at hlen <;>
      obtain ⟨n, rfl, hn⟩ := hok <;>
      simp [ProgramHeader.set, ProgramHeader.get, jsToNumber, jsToBigInt] <;>
      exact roundtrip_field _ le b _ n (by omega) hn
  · intro b le is32 f v hlen hok
    cases f <;> cases is32 <;>
      simp [Symok, okNative, okNum] at hok <;>
      simp at hlen <;>
      obtain ⟨n, rfl, hn⟩ := hok <;>
      simp [Symbol.set, Symbol.get, jsToNumber, jsToBigInt] <;>
      (try rw [getUint8_eq_readU1 _ _ le]) <;>
      exact roundtrip_field _ le b _ n (by omega) hn
  · intro r le is32 f v hlen hna hok
    cases f <;> cases is32 <;>
      simp [Relok, okNative, okNum] at hok <;>
      simp at hlen <;>
      obtain ⟨n, rfl, hn⟩ := hok <;>
      simp [Rel.set, Rel.get, jsToNumber, jsToBigInt, hna] <;>
      exact roundtrip_field _ le r.bytes _ n (by omega) hn
  · intro b le is32 f v hlen hok
    cases f <;> cases is32 <;>
      simp [Dynok, okNative, okNum] at hok <;>
      simp at hlen <;>
      obtain ⟨n, rfl, hn⟩ := hok <;>
      simp [Dyn.set, Dyn.get, Dyn.setValB, Dyn.getValB, jsToNumber, jsToBigInt] <;>
      exact roundtrip_field _ le b _ n (by omega) hn
  · intro b le is32 f v hlen hok
    cases f <;> cases is32 <;>
      simp [Noteok, okNative, okNum] at hok <;>
      simp at hlen <;>
      obtain ⟨n, rfl, hn⟩ := hok <;>
      simp [Note.set, Note.get, jsToNumber, jsToBigInt] <;>
      exact roundtrip_field _ le b _ n (by omega) hn

/-- Witness for C4 (amended): writing 7 to the 32-bit file `c1buf`'s
`version` field and reading it back returns 7. -/
theorem c4_roundtrip_witness :
    (ELFHeader.set c1buf .version (.num 7)).map
      (fun b2 => ELFHeader.get b2 .version) = some (.num 7) :=
  c4_roundtrip.1 c1buf .version (.num 7) (by decide)
    (by exact ⟨7, rfl, by norm_num⟩)
